import Mathlib

/-!
Verification of the Feefo review/rating extraction core
(`src/pipeline/extract.py` and `src/pipeline/settings.py`).

The Python functions are shallowly embedded as executable Lean
definitions: dictionaries become structures, the review stream becomes a
list, the per-run mutable `seen_skus` set and the yielded records become
explicit state threaded through folds, and the HTTP fetch becomes an
oracle `String → Except Unit (List ProductData)` whose `error` value
stands for the three caught exception classes (HTTPError,
RequestException, ValueError on JSON decode).  Ratings are embedded as
rationals.
-/

namespace Feefo

/-! ## Settings (`src/pipeline/settings.py`) -/

def FEEFO_API_BASE_URL : String := "https://api.feefo.com/api/20"

def DEFAULT_MERCHANT_ID : String := "notonthehighstreet-com"

def DEFAULT_MAX_PAGES : Nat := 1

/-! ## Sentiment classifier (`categorise_review`) -/

def positive_keywords : List String :=
  ["excellent", "amazing", "love", "perfect", "beautiful", "great", "fantastic"]

def negative_keywords : List String :=
  ["disappointed", "poor", "terrible", "awful", "broken", "bad", "worst"]

/-- The `for word in review_words` loop of `categorise_review`:
return `"positive"` on the first token that is a positive keyword,
`"negative"` on the first token that is a negative keyword, else fall
through to `"neutral"`. -/
def scanWords : List String → String
  | [] => "neutral"
  | w :: ws =>
    if w ∈ positive_keywords then "positive"
    else if w ∈ negative_keywords then "negative"
    else scanWords ws

/-- Python `str.split()` with no arguments: split on runs of whitespace,
discarding empty pieces. -/
def pySplit (s : String) : List String :=
  (s.split Char.isWhitespace).filter (fun t => t ≠ "")

/-- Embedding of `categorise_review(rating, review)`
(`src/pipeline/extract.py` lines 165-204).  The optional float rating is
embedded as `Option ℚ`. -/
def categorise_review (rating : Option ℚ) (review : String) : String :=
  match rating with
  | some r =>
    if r ≥ 4 then "positive"
    else if r = 3 then "neutral"
    else "negative"
  | none => scanWords (pySplit review.toLower)

/-- The spec's description of the keyword scan, stated independently of
the loop: the first token belonging to either keyword set decides the
category (positive checked first), and with no such token the result is
neutral. -/
def firstKeywordHit (tokens : List String) : Option String :=
  tokens.find? (fun w => w ∈ positive_keywords || w ∈ negative_keywords)

theorem scanWords_eq_firstKeywordHit (tokens : List String) :
    scanWords tokens =
      match firstKeywordHit tokens with
      | some w => if w ∈ positive_keywords then "positive" else "negative"
      | none => "neutral" := by
  induction tokens with
  | nil => rfl
  | cons w ws ih =>
    by_cases hp : w ∈ positive_keywords
    · simp [scanWords, firstKeywordHit, List.find?, hp]
    · by_cases hn : w ∈ negative_keywords
      · simp [scanWords, firstKeywordHit, List.find?, hp, hn]
      · simpa [scanWords, firstKeywordHit, List.find?, hp, hn] using ih

/-! ## Data model for the SKU enrichment transformer -/

/-- A product mention embedded in a review: `product.get("product", {}).get("sku")`.
`none` covers both an absent `sku` field and an explicit null. -/
structure ProductMention where
  sku : Option String
deriving DecidableEq

/-- A review as consumed by the transformer: only its `products` list is
read. -/
structure Review where
  products : List ProductMention
deriving DecidableEq

/-- One element of the remote `data["products"]` array, with the two
fields the transformer reads: `average_rating` and `review_text`. -/
structure ProductData where
  average_rating : Option ℚ
  review_text : String
deriving DecidableEq

/-- An output record: the fetched product with the added `category`
field. -/
structure EnrichedProduct where
  data : ProductData
  category : String
deriving DecidableEq

/-- `product["category"] = categorise_review(...)` before yielding. -/
def enrichProduct (p : ProductData) : EnrichedProduct :=
  { data := p
    category := categorise_review p.average_rating p.review_text }

/-- The fetch oracle abstracts `requests.get(...)` + `.raise_for_status()`
+ `.json()`.  `error` is any of the three caught exceptions; `ok ps` is a
successful response whose `data["products"]` list is `ps` (a response
missing the key behaves as `ok []`: the code yields nothing either way). -/
def FetchOracle : Type := String → Except Unit (List ProductData)

/-- The observable state of one `fetch_products_from_reviews` run:
the `seen_skus` set (as the list of insertions in order), the list of
SKUs for which an HTTP request was issued, and the records yielded so
far. -/
structure TState where
  seen : List String
  calls : List String
  out : List EnrichedProduct
deriving DecidableEq

def initialState : TState := ⟨[], [], []⟩

/-- The body of the inner `for product in products` loop
(`src/pipeline/extract.py` lines 47-93).  `if sku and sku not in
seen_skus` is Python truthiness: `none` and `some ""` are both skipped.
The SKU is added to `seen_skus` before the request; the request is
recorded in `calls` whether it succeeds or fails; only a successful
response contributes output records. -/
def stepMention (fetch : FetchOracle) (s : TState) (m : ProductMention) : TState :=
  match m.sku with
  | none => s
  | some sku =>
    if sku ≠ "" ∧ sku ∉ s.seen then
      match fetch sku with
      | .error _ =>
        { s with seen := s.seen ++ [sku], calls := s.calls ++ [sku] }
      | .ok ps =>
        { seen := s.seen ++ [sku]
          calls := s.calls ++ [sku]
          out := s.out ++ ps.map enrichProduct }
    else s

/-- The inner loop over one review's `products` list. -/
def runMentions (fetch : FetchOracle) (s : TState) : List ProductMention → TState
  | [] => s
  | m :: ms => runMentions fetch (stepMention fetch s m) ms

/-- Embedding of the transformer `fetch_products_from_reviews`
(`src/pipeline/extract.py` lines 25-95): the outer loop over the review
stream, started from the empty `seen_skus` set.  `review.get("products",
[])` is the `products` field of the embedded `Review`. -/
def runReviews (fetch : FetchOracle) (s : TState) : List Review → TState
  | [] => s
  | r :: rs => runReviews fetch (runMentions fetch s r.products) rs

def fetch_products_from_reviews (fetch : FetchOracle) (reviews : List Review) : TState :=
  runReviews fetch initialState reviews

/-- All SKU fields of all product mentions of a stream, in order. -/
def mentionSkus (reviews : List Review) : List (Option String) :=
  (reviews.flatMap (fun r => r.products)).map (fun m => m.sku)

/-- The distinct non-null SKUs of a stream (null/absent dropped,
duplicates merged); its length is the `k` of the spec's dedup property. -/
def distinctNonNullSkus (reviews : List Review) : List String :=
  ((mentionSkus reviews).filterMap id).dedup

/-- The distinct truthy SKUs of a stream: non-null and non-empty. -/
def distinctNonEmptySkus (reviews : List Review) : List String :=
  (((mentionSkus reviews).filterMap id).filter (fun s => s ≠ "")).dedup

/-- The records a single SKU's fetch contributes to the output: none on
a failed fetch, the enriched response records on a successful one. -/
def fetchContribution (fetch : FetchOracle) (sku : String) : List EnrichedProduct :=
  match fetch sku with
  | .error _ => []
  | .ok ps => ps.map enrichProduct

/-! ## Basic unfolding lemmas -/

theorem stepMention_none (fetch : FetchOracle) (s : TState) :
    stepMention fetch s ⟨none⟩ = s := rfl

theorem stepMention_some (fetch : FetchOracle) (s : TState) (sku : String) :
    stepMention fetch s ⟨some sku⟩ =
      if sku ≠ "" ∧ sku ∉ s.seen then
        match fetch sku with
        | .error _ =>
          { s with seen := s.seen ++ [sku], calls := s.calls ++ [sku] }
        | .ok ps =>
          { seen := s.seen ++ [sku]
            calls := s.calls ++ [sku]
            out := s.out ++ ps.map enrichProduct }
      else s := rfl

theorem runMentions_append (fetch : FetchOracle) (s : TState)
    (a b : List ProductMention) :
    runMentions fetch s (a ++ b) = runMentions fetch (runMentions fetch s a) b := by
  induction a generalizing s with
  | nil => rfl
  | cons m ms ih => simp [runMentions, ih]

theorem runReviews_append (fetch : FetchOracle) (s : TState)
    (a b : List Review) :
    runReviews fetch s (a ++ b) = runReviews fetch (runReviews fetch s a) b := by
  induction a generalizing s with
  | nil => rfl
  | cons r rs ih => simp [runReviews, ih]

/-! ## The run invariant: `seen_skus` mirrors the issued calls, every
issued call is for a distinct truthy SKU -/

/-- Invariant carried through a transformer run: the `seen_skus` set is
exactly the list of SKUs dispatched to the fetcher, no SKU is dispatched
twice, and no dispatched SKU is the empty string. -/
def Inv (s : TState) : Prop :=
  s.seen = s.calls ∧ s.calls.Nodup ∧ ∀ x ∈ s.calls, x ≠ ""

theorem inv_initialState : Inv initialState := by
  refine ⟨rfl, List.nodup_nil, ?_⟩
  intro x hx
  simp [initialState] at hx

theorem inv_stepMention (fetch : FetchOracle) (s : TState) (m : ProductMention)
    (h : Inv s) : Inv (stepMention fetch s m) := by
  obtain ⟨sku?⟩ := m
  cases sku? with
  | none => simpa [stepMention_none] using h
  | some sku =>
    rw [stepMention_some]
    split_ifs with hc
    · obtain ⟨hsc, hnd, hne⟩ := h
      have hnotin : sku ∉ s.calls := hsc ▸ hc.2
      cases hf : fetch sku with
      | error e =>
        refine ⟨by simp [hsc], ?_, ?_⟩
        · simpa [List.nodup_append] using ⟨hnd, hnotin⟩
        · intro x hx
          rcases List.mem_append.mp hx with hx | hx
          · exact hne x hx
          · simp at hx; subst hx; exact hc.1
      | ok ps =>
        refine ⟨by simp [hsc], ?_, ?_⟩
        · simpa [List.nodup_append] using ⟨hnd, hnotin⟩
        · intro x hx
          rcases List.mem_append.mp hx with hx | hx
          · exact hne x hx
          · simp at hx; subst hx; exact hc.1
    · exact h

theorem inv_runMentions (fetch : FetchOracle) (s : TState)
    (ms : List ProductMention) (h : Inv s) : Inv (runMentions fetch s ms) := by
  induction ms generalizing s with
  | nil => exact h
  | cons m ms ih => exact ih _ (inv_stepMention fetch s m h)

theorem inv_runReviews (fetch : FetchOracle) (s : TState)
    (rs : List Review) (h : Inv s) : Inv (runReviews fetch s rs) := by
  induction rs generalizing s with
  | nil => exact h
  | cons r rs ih => exact ih _ (inv_runMentions fetch s r.products h)

theorem inv_run (fetch : FetchOracle) (reviews : List Review) :
    Inv (fetch_products_from_reviews fetch reviews) :=
  inv_runReviews fetch initialState reviews inv_initialState

/-! ## Which SKUs end up in `seen_skus` -/

theorem seen_stepMention (fetch : FetchOracle) (s : TState) (m : ProductMention)
    (x : String) :
    x ∈ (stepMention fetch s m).seen ↔
      x ∈ s.seen ∨ (m.sku = some x ∧ x ≠ "") := by
  obtain ⟨sku?⟩ := m
  cases sku? with
  | none => simp [stepMention_none]
  | some sku =>
    rw [stepMention_some]
    split_ifs with hc
    · cases hf : fetch sku with
      | error e =>
        simp only [hf]
        constructor
        · intro hx
          rcases List.mem_append.mp hx with hx | hx
          · exact Or.inl hx
          · simp at hx; subst hx; exact Or.inr ⟨rfl, hc.1⟩
        · rintro (hx | ⟨hsk, hxe⟩)
          · exact List.mem_append.mpr (Or.inl hx)
          · simp at hsk; subst hsk; simp
      | ok ps =>
        simp only [hf]
        constructor
        · intro hx
          rcases List.mem_append.mp hx with hx | hx
          · exact Or.inl hx
          · simp at hx; subst hx; exact Or.inr ⟨rfl, hc.1⟩
        · rintro (hx | ⟨hsk, hxe⟩)
          · exact List.mem_append.mpr (Or.inl hx)
          · simp at hsk; subst hsk; simp
    · constructor
      · exact Or.inl
      · rintro (hx | ⟨hsk, hxe⟩)
        · exact hx
        · simp at hsk; subst hsk
          rcases not_and_or.mp hc with h1 | h2
          · exact absurd hxe (by simpa using h1)
          · simpa using h2

theorem seen_runMentions (fetch : FetchOracle) (s : TState)
    (ms : List ProductMention) (x : String) :
    x ∈ (runMentions fetch s ms).seen ↔
      x ∈ s.seen ∨ ∃ m ∈ ms, m.sku = some x ∧ x ≠ "" := by
  induction ms generalizing s with
  | nil => simp [runMentions]
  | cons m ms ih =>
    simp only [runMentions]
    rw [ih, seen_stepMention]
    constructor
    · rintro ((hx | hm) | ⟨m', hm', hx⟩)
      · exact Or.inl hx
      · exact Or.inr ⟨m, List.mem_cons_self m ms, hm⟩
      · exact Or.inr ⟨m', List.mem_cons_of_mem m hm', hx⟩
    · rintro (hx | ⟨m', hm', hx⟩)
      · exact Or.inl (Or.inl hx)
      · rcases List.mem_cons.mp hm' with rfl | hm'
        · exact Or.inl (Or.inr hx)
        · exact Or.inr ⟨m', hm', hx⟩

theorem seen_runReviews (fetch : FetchOracle) (s : TState)
    (rs : List Review) (x : String) :
    x ∈ (runReviews fetch s rs).seen ↔
      x ∈ s.seen ∨ ∃ r ∈ rs, ∃ m ∈ r.products, m.sku = some x ∧ x ≠ "" := by
  induction rs generalizing s with
  | nil => simp [runReviews]
  | cons r rs ih =>
    simp only [runReviews]
    rw [ih, seen_runMentions]
    constructor
    · rintro ((hx | ⟨m, hm, hx⟩) | ⟨r', hr', hx⟩)
      · exact Or.inl hx
      · exact Or.inr ⟨r, List.mem_cons_self r rs, m, hm, hx⟩
      · exact Or.inr ⟨r', List.mem_cons_of_mem r hr', hx⟩
    · rintro (hx | ⟨r', hr', m, hm, hx⟩)
      · exact Or.inl (Or.inl hx)
      · rcases List.mem_cons.mp hr' with rfl | hr'
        · exact Or.inl (Or.inr ⟨m, hm, hx⟩)
        · exact Or.inr ⟨r', hr', m, hm, hx⟩

theorem mem_calls_iff (fetch : FetchOracle) (reviews : List Review) (x : String) :
    x ∈ (fetch_products_from_reviews fetch reviews).calls ↔
      some x ∈ mentionSkus reviews ∧ x ≠ "" := by
  have hinv := inv_run fetch reviews
  rw [← hinv.1]
  rw [fetch_products_from_reviews] at *
  rw [seen_runReviews]
  simp only [initialState, List.not_mem_nil, false_or]
  constructor
  · rintro ⟨r, hr, m, hm, hsk, hxe⟩
    refine ⟨?_, hxe⟩
    simp only [mentionSkus, List.mem_map, List.mem_flatMap]
    exact ⟨m, ⟨r, hr, hm⟩, hsk⟩
  · rintro ⟨hmem, hxe⟩
    simp only [mentionSkus, List.mem_map, List.mem_flatMap] at hmem
    obtain ⟨m, ⟨r, hr, hm⟩, hsk⟩ := hmem
    exact ⟨r, hr, m, hm, hsk, hxe⟩

/-! ## The output is the concatenation of per-call contributions -/

theorem out_stepMention (fetch : FetchOracle) (s : TState) (m : ProductMention)
    (h : s.out = s.calls.flatMap (fetchContribution fetch)) :
    (stepMention fetch s m).out =
      (stepMention fetch s m).calls.flatMap (fetchContribution fetch) := by
  obtain ⟨sku?⟩ := m
  cases sku? with
  | none => simpa [stepMention_none] using h
  | some sku =>
    rw [stepMention_some]
    split_ifs with hc
    · cases hf : fetch sku with
      | error e => simp [h, fetchContribution, hf]
      | ok ps => simp [h, fetchContribution, hf]
    · exact h

theorem out_runMentions (fetch : FetchOracle) (s : TState)
    (ms : List ProductMention)
    (h : s.out = s.calls.flatMap (fetchContribution fetch)) :
    (runMentions fetch s ms).out =
      (runMentions fetch s ms).calls.flatMap (fetchContribution fetch) := by
  induction ms generalizing s with
  | nil => exact h
  | cons m ms ih => exact ih _ (out_stepMention fetch s m h)

theorem out_runReviews (fetch : FetchOracle) (s : TState)
    (rs : List Review)
    (h : s.out = s.calls.flatMap (fetchContribution fetch)) :
    (runReviews fetch s rs).out =
      (runReviews fetch s rs).calls.flatMap (fetchContribution fetch) := by
  induction rs generalizing s with
  | nil => exact h
  | cons r rs ih => exact ih _ (out_runMentions fetch s r.products h)

theorem out_run (fetch : FetchOracle) (reviews : List Review) :
    (fetch_products_from_reviews fetch reviews).out =
      (fetch_products_from_reviews fetch reviews).calls.flatMap
        (fetchContribution fetch) :=
  out_runReviews fetch initialState reviews rfl

/-! ## The call trace does not depend on the fetch results -/

theorem stepMention_oracle_indep (f g : FetchOracle) (s t : TState)
    (m : ProductMention) (hs : s.seen = t.seen) (hc : s.calls = t.calls) :
    (stepMention f s m).seen = (stepMention g t m).seen ∧
      (stepMention f s m).calls = (stepMention g t m).calls := by
  obtain ⟨sku?⟩ := m
  cases sku? with
  | none => simpa [stepMention_none] using ⟨hs, hc⟩
  | some sku =>
    rw [stepMention_some, stepMention_some, hs]
    split_ifs with hcond
    · cases hf : f sku with
      | error e =>
        cases hg : g sku with
        | error e' => exact ⟨by simp [hs], by simp [hc]⟩
        | ok ps => exact ⟨by simp [hs], by simp [hc]⟩
      | ok ps =>
        cases hg : g sku with
        | error e' => exact ⟨by simp [hs], by simp [hc]⟩
        | ok ps' => exact ⟨by simp [hs], by simp [hc]⟩
    · exact ⟨hs, hc⟩

theorem runMentions_oracle_indep (f g : FetchOracle) (s t : TState)
    (ms : List ProductMention) (hs : s.seen = t.seen) (hc : s.calls = t.calls) :
    (runMentions f s ms).seen = (runMentions g t ms).seen ∧
      (runMentions f s ms).calls = (runMentions g t ms).calls := by
  induction ms generalizing s t with
  | nil => exact ⟨hs, hc⟩
  | cons m ms ih =>
    obtain ⟨hs', hc'⟩ := stepMention_oracle_indep f g s t m hs hc
    exact ih _ _ hs' hc'

theorem runReviews_oracle_indep (f g : FetchOracle) (s t : TState)
    (rs : List Review) (hs : s.seen = t.seen) (hc : s.calls = t.calls) :
    (runReviews f s rs).seen = (runReviews g t rs).seen ∧
      (runReviews f s rs).calls = (runReviews g t rs).calls := by
  induction rs generalizing s t with
  | nil => exact ⟨hs, hc⟩
  | cons r rs ih =>
    obtain ⟨hs', hc'⟩ := runMentions_oracle_indep f g s t r.products hs hc
    exact ih _ _ hs' hc'

theorem calls_oracle_indep (f g : FetchOracle) (reviews : List Review) :
    (fetch_products_from_reviews f reviews).calls =
      (fetch_products_from_reviews g reviews).calls :=
  (runReviews_oracle_indep f g initialState initialState reviews rfl rfl).2

theorem seen_oracle_indep (f g : FetchOracle) (reviews : List Review) :
    (fetch_products_from_reviews f reviews).seen =
      (fetch_products_from_reviews g reviews).seen :=
  (runReviews_oracle_indep f g initialState initialState reviews rfl rfl).1

/-- A review stream consisting of one review with one product mention
whose SKU is the empty string: one distinct non-null SKU. -/
def emptySkuStream : List Review := [⟨[⟨some ""⟩]⟩]

/-- C1, counterexample: the claim promises one Rating Fetcher call per
distinct non-null SKU, but on a stream whose single mention carries the
non-null SKU `""` (one distinct non-null SKU, one mention) the
transformer issues zero calls: `if sku and ...` is Python truthiness, so
the empty string is skipped like a null. -/
theorem C1_counterexample :
    distinctNonNullSkus emptySkuStream = [""] ∧
    (distinctNonNullSkus emptySkuStream).length = 1 ∧
    (fetch_products_from_reviews (fun _ => Except.ok []) emptySkuStream).calls = [] ∧
    (fetch_products_from_reviews (fun _ => Except.ok []) emptySkuStream).calls.length = 0 := by
  refine ⟨rfl, rfl, rfl, rfl⟩

/-- C1 (amended): for every review stream and every fetch behaviour, the
SKU Enrichment Transformer invokes the Rating Fetcher exactly once per
distinct truthy SKU — non-null *and* non-empty — and never more: the
call list is duplicate-free, a SKU is called iff it occurs as a mention
SKU and is non-empty, and the number of calls equals the number of
distinct non-empty SKUs in the stream. -/
theorem C1_sku_dedup (fetch : FetchOracle) (reviews : List Review) :
    (fetch_products_from_reviews fetch reviews).calls.Nodup ∧
    (∀ s, s ∈ (fetch_products_from_reviews fetch reviews).calls ↔
      some s ∈ mentionSkus reviews ∧ s ≠ "") ∧
    (fetch_products_from_reviews fetch reviews).calls.length =
      (distinctNonEmptySkus reviews).length := by
  have hinv := inv_run fetch reviews
  refine ⟨hinv.2.1, mem_calls_iff fetch reviews, ?_⟩
  have hd : (distinctNonEmptySkus reviews).Nodup := List.nodup_dedup _
  have hmem : ∀ x, x ∈ (fetch_products_from_reviews fetch reviews).calls ↔
      x ∈ distinctNonEmptySkus reviews := by
    intro x
    rw [mem_calls_iff]
    simp [distinctNonEmptySkus, List.mem_dedup, List.mem_filter, List.mem_filterMap]
  exact ((List.perm_ext_iff_of_nodup hinv.2.1 hd).mpr hmem).length_eq

/-- C2: `categorise_review` is total and deterministic (it is a Lean
function), a present rating takes strict priority over the text
(`4 ≤ r → positive`, `r = 3 → neutral`, `r < 3 → negative` for any
text), and with no rating the lowercased whitespace tokens are scanned
left to right, the first token lying in either keyword set deciding the
category (positive if it is a positive keyword, else negative), with
neutral when no token matches. -/
theorem C2_categorise_spec :
    (∀ (r : ℚ) (t : String), 4 ≤ r → categorise_review (some r) t = "positive") ∧
    (∀ t : String, categorise_review (some 3) t = "neutral") ∧
    (∀ (r : ℚ) (t : String), r < 3 → categorise_review (some r) t = "negative") ∧
    (∀ t : String, categorise_review none t =
      match firstKeywordHit (pySplit t.toLower) with
      | some w => if w ∈ positive_keywords then "positive" else "negative"
      | none => "neutral") := by
  refine ⟨?_, ?_, ?_, ?_⟩
  · intro r t h
    simp [categorise_review, h]
  · intro t
    norm_num [categorise_review]
  · intro r t h
    have h4 : ¬ (4 ≤ r) := by linarith
    have h3 : r ≠ 3 := by linarith
    simp [categorise_review, h4, h3]
  · intro t
    simpa [categorise_review] using scanWords_eq_firstKeywordHit (pySplit t.toLower)

theorem C2_witness :
    ((4:ℚ) ≤ 5 ∧ categorise_review (some 5) "terrible" = "positive") ∧
    categorise_review (some 3) "amazing" = "neutral" ∧
    ((1:ℚ) < 3 ∧ categorise_review (some 1) "amazing" = "negative") ∧
    categorise_review none "this is amazing" =
      match firstKeywordHit (pySplit "this is amazing".toLower) with
      | some w => if w ∈ positive_keywords then "positive" else "negative"
      | none => "neutral" :=
  ⟨⟨by norm_num, C2_categorise_spec.1 5 "terrible" (by norm_num)⟩,
   C2_categorise_spec.2.1 "amazing",
   ⟨by norm_num, C2_categorise_spec.2.2.1 1 "amazing" (by norm_num)⟩,
   C2_categorise_spec.2.2.2 "this is amazing"⟩

/-- C4: error isolation in the transformer.  The yielded records are
exactly the concatenation, over the SKUs actually dispatched, of each
SKU's own contribution — `fetchContribution` maps a failed fetch to `[]`
and a successful one to its enriched records — so one SKU's failure
removes only that SKU's records; and the set of SKUs dispatched (and the
`seen_skus` set) is identical under any two fetch behaviours, so a
failure never prevents later mentions, SKUs or reviews from being
processed.  The run is a total function: no exception escapes. -/
theorem C4_error_isolation (fetch g : FetchOracle) (reviews : List Review) :
    (fetch_products_from_reviews fetch reviews).out =
      (fetch_products_from_reviews fetch reviews).calls.flatMap
        (fetchContribution fetch) ∧
    (fetch_products_from_reviews fetch reviews).calls =
      (fetch_products_from_reviews g reviews).calls ∧
    (fetch_products_from_reviews fetch reviews).seen =
      (fetch_products_from_reviews g reviews).seen :=
  ⟨out_run fetch reviews, calls_oracle_indep fetch g reviews,
   seen_oracle_indep fetch g reviews⟩

/-- C7: missing-SKU tolerance.  A mention whose SKU is null/absent is a
no-op of the transformer state (no fetch, no output, no exception), and
deleting such a mention — or a review with an empty products list —
anywhere in the stream leaves the whole run unchanged. -/
theorem C7_missing_sku_tolerance (fetch : FetchOracle) :
    (∀ s : TState, stepMention fetch s ⟨none⟩ = s) ∧
    (∀ (rs₁ rs₂ : List Review) (ps₁ ps₂ : List ProductMention),
      fetch_products_from_reviews fetch (rs₁ ++ ⟨ps₁ ++ ⟨none⟩ :: ps₂⟩ :: rs₂) =
        fetch_products_from_reviews fetch (rs₁ ++ ⟨ps₁ ++ ps₂⟩ :: rs₂)) ∧
    (∀ rs₁ rs₂ : List Review,
      fetch_products_from_reviews fetch (rs₁ ++ ⟨[]⟩ :: rs₂) =
        fetch_products_from_reviews fetch (rs₁ ++ rs₂)) := by
  refine ⟨fun s => stepMention_none fetch s, ?_, ?_⟩
  · intro rs₁ rs₂ ps₁ ps₂
    unfold fetch_products_from_reviews
    rw [runReviews_append, runReviews_append]
    simp only [runReviews]
    congr 1
    rw [show ps₁ ++ (⟨none⟩ : ProductMention) :: ps₂ = ps₁ ++ [⟨none⟩] ++ ps₂ by simp,
      runMentions_append, runMentions_append, runMentions_append]
    simp [runMentions, stepMention_none]
  · intro rs₁ rs₂
    unfold fetch_products_from_reviews
    rw [runReviews_append, runReviews_append]
    simp only [runReviews]
    rfl

/-- C8: a mention whose SKU is the empty string is skipped exactly like
a null one — `if sku and ...` tests Python truthiness, and `""` is
falsy — so it is a state no-op and `""` never appears among the
dispatched SKUs, even though `""` is a non-null string value. -/
theorem C8_empty_string_sku (fetch : FetchOracle) :
    (∀ s : TState, stepMention fetch s ⟨some ""⟩ = s) ∧
    (∀ reviews : List Review,
      "" ∉ (fetch_products_from_reviews fetch reviews).calls) := by
  constructor
  · intro s
    rw [stepMention_some]
    simp
  · intro reviews hmem
    exact (inv_run fetch reviews).2.2 "" hmem rfl

/-- C9: at most one fetch attempt per SKU per run, counting failures.
For every fetch behaviour — including ones that fail on any subset of
SKUs — the list of dispatched SKUs is duplicate-free, and `seen_skus`
coincides with it: a SKU whose fetch failed is still recorded as seen
(it is inserted before the request), so a later mention of the same SKU
is never retried. -/
theorem C9_seen_before_fetch (fetch : FetchOracle) (reviews : List Review) :
    (fetch_products_from_reviews fetch reviews).calls.Nodup ∧
    (fetch_products_from_reviews fetch reviews).seen =
      (fetch_products_from_reviews fetch reviews).calls :=
  ⟨(inv_run fetch reviews).2.1, (inv_run fetch reviews).1⟩

/-- C10: the rating branch of `categorise_review` sends every present
rating that is neither `≥ 4` nor `= 3` to `"negative"`; in particular a
fractional rating strictly between 3 and 4 is categorised negative. -/
theorem C10_fractional_rating_negative (r : ℚ) (t : String)
    (h3 : 3 < r) (h4 : r < 4) : categorise_review (some r) t = "negative" := by
  have hge : ¬ (4 ≤ r) := by linarith
  have hne : r ≠ 3 := by linarith
  simp [categorise_review, hge, hne]

theorem C10_witness :
    (3:ℚ) < 7/2 ∧ (7/2:ℚ) < 4 ∧
    categorise_review (some (7/2)) "lovely" = "negative" :=
  ⟨by norm_num, by norm_num,
   C10_fractional_rating_negative (7/2) "lovely" (by norm_num) (by norm_num)⟩

/-! ## Rating Fetcher request parameters (`src/pipeline/extract.py`
lines 57-65) -/

/-- The query parameters of one Rating Fetcher request:
`{"merchant_identifier": ..., "product_sku": ...}`, with
`params["since_period"] = f"{period_days}days"` appended under
`if period_days:` — Python truthiness on `int | None`, i.e. only when
the value is present and non-zero. -/
def ratingRequestParams (merchant_id sku : String) (period_days : Option Int) :
    List (String × String) :=
  let base := [("merchant_identifier", merchant_id), ("product_sku", sku)]
  match period_days with
  | some n => if n ≠ 0 then base ++ [("since_period", toString n ++ "days")] else base
  | none => base

/-- C6: for every positive `period_days = n` the request carries
`since_period` equal to the decimal rendering of `n` followed by the
literal `"days"`, with no unit conversion; with `period_days` unset the
request carries no `since_period` parameter at all. -/
theorem C6_period_formatting (m sku : String) :
    (∀ n : Int, 0 < n →
      (ratingRequestParams m sku (some n)).lookup "since_period" =
        some (toString n ++ "days")) ∧
    (ratingRequestParams m sku none).lookup "since_period" = none := by
  constructor
  · intro n hn
    have hne : n ≠ 0 := by omega
    simp [ratingRequestParams, hne, List.lookup]
  · simp [ratingRequestParams, List.lookup]

theorem C6_witness :
    (0:Int) < 30 ∧
    (ratingRequestParams DEFAULT_MERCHANT_ID "SKU-1" (some 30)).lookup
      "since_period" = some "30days" ∧
    (ratingRequestParams DEFAULT_MERCHANT_ID "SKU-1" none).lookup
      "since_period" = none :=
  ⟨by norm_num,
   (C6_period_formatting DEFAULT_MERCHANT_ID "SKU-1").1 30 (by norm_num),
   (C6_period_formatting DEFAULT_MERCHANT_ID "SKU-1").2⟩

/-! ## Pipeline orchestrator (`run_dlt`, `src/pipeline/extract.py`
lines 207-300) -/

def write_disposition_map : List (String × String) :=
  [("merge", "merge"), ("replace", "replace"), ("append", "append")]

/-- The observable milestones of `run_dlt`, in program order.  Network
requests can only be issued from `runPipeline` onwards (dlt resources
are lazy), which in turn follows pipeline and source construction. -/
inductive PipelineEvent where
  | raiseValueError (msg : String)
  | createPipeline
  | createSource
  | applyWriteDisposition (wd : String)
  | runPipeline
deriving DecidableEq

/-- Embedding of the control flow of `run_dlt(mode, ...)` as the trace
of milestones it reaches: the mode is looked up in
`write_disposition_map` first, and an unknown mode raises `ValueError`
before the pipeline, the source, or anything that could touch the
network is constructed. -/
def run_dlt (mode : String) : List PipelineEvent :=
  match write_disposition_map.lookup mode with
  | none =>
    [PipelineEvent.raiseValueError
      ("Invalid mode: " ++ mode ++ ". Must be one of: merge, replace, append")]
  | some wd =>
    [PipelineEvent.createPipeline, PipelineEvent.createSource,
      PipelineEvent.applyWriteDisposition wd, PipelineEvent.runPipeline]

/-- C5: for every mode outside `{merge, replace, append}` the run's
whole trace is the single `ValueError` — so no pipeline construction,
no source construction and no network-capable step precedes or follows
it — and for every mode in the set no `ValueError` is raised. -/
theorem C5_mode_validation (mode : String) :
    (mode ∉ (["merge", "replace", "append"] : List String) →
      run_dlt mode =
        [PipelineEvent.raiseValueError
          ("Invalid mode: " ++ mode ++ ". Must be one of: merge, replace, append")]) ∧
    (mode ∈ (["merge", "replace", "append"] : List String) →
      ∀ msg, PipelineEvent.raiseValueError msg ∉ run_dlt mode) := by
  constructor
  · intro h
    simp only [List.mem_cons, List.not_mem_nil, or_false, not_or] at h
    obtain ⟨h1, h2, h3⟩ := h
    have b1 : (mode == "merge") = false := beq_eq_false_iff_ne.mpr h1
    have b2 : (mode == "replace") = false := beq_eq_false_iff_ne.mpr h2
    have b3 : (mode == "append") = false := beq_eq_false_iff_ne.mpr h3
    simp [run_dlt, write_disposition_map, List.lookup, b1, b2, b3]
  · intro h msg
    rcases List.mem_cons.mp h with rfl | h
    · simp [run_dlt, write_disposition_map, List.lookup]
    rcases List.mem_cons.mp h with rfl | h
    · simp [run_dlt, write_disposition_map, List.lookup]
    rcases List.mem_cons.mp h with rfl | h
    · simp [run_dlt, write_disposition_map, List.lookup]
    · simp at h

theorem C5_witness :
    ("sideways" ∉ (["merge", "replace", "append"] : List String) ∧
      run_dlt "sideways" =
        [PipelineEvent.raiseValueError
          ("Invalid mode: " ++ "sideways" ++ ". Must be one of: merge, replace, append")]) ∧
    ("merge" ∈ (["merge", "replace", "append"] : List String) ∧
      ∀ msg, PipelineEvent.raiseValueError msg ∉ run_dlt "merge") :=
  ⟨⟨by decide, (C5_mode_validation "sideways").1 (by decide)⟩,
   ⟨by decide, (C5_mode_validation "merge").2 (by decide)⟩⟩

/-! ## Review Paginator (`feefo_source`, `src/pipeline/extract.py`
lines 98-162) -/

/-- Modelled from the spec: the Review Paginator's page loop lives in
the external dlt `PageNumberPaginator` (library code, not under `src/`);
`feefo_source` only configures it with `base_page=1`, `page_param="page"`,
`total_path="summary.meta.pages"` and `maximum_page=max_pages`.  Per
spec §4.2 the paginator starts at page 1 — the first request is always
issued, since the first response is what reveals the server-declared
total — and stops after `min(server_total_pages, max_pages)` pages.
The definition returns the page numbers requested, in order. -/
def paginator_requested_pages (server_total max_pages : Nat) : List Nat :=
  List.range' 1 (max 1 (min server_total max_pages))

/-- C3: for every page cap `N ≥ 1` and server-declared total `T ≥ 1`,
the paginator issues exactly `min T N` page requests — hence at least 1
and at most `N` — and every requested page number is at least 1 (never
page 0 or negative). -/
theorem C3_pagination_bound (N T : Nat) (hN : 1 ≤ N) (hT : 1 ≤ T) :
    (paginator_requested_pages T N).length = min T N ∧
    1 ≤ (paginator_requested_pages T N).length ∧
    (paginator_requested_pages T N).length ≤ N ∧
    ∀ p ∈ paginator_requested_pages T N, 1 ≤ p := by
  have hmin : 1 ≤ min T N := le_min hT hN
  have hl : (paginator_requested_pages T N).length = min T N := by
    simp [paginator_requested_pages, max_eq_right hmin]
  refine ⟨hl, ?_, ?_, ?_⟩
  · rw [hl]; exact hmin
  · rw [hl]; exact min_le_right T N
  · intro p hp
    simp only [paginator_requested_pages, List.mem_range'] at hp
    omega

theorem C3_witness :
    (1 ≤ 3 ∧ 1 ≤ 2) ∧
    ((paginator_requested_pages 2 3).length = min 2 3 ∧
      1 ≤ (paginator_requested_pages 2 3).length ∧
      (paginator_requested_pages 2 3).length ≤ 3 ∧
      ∀ p ∈ paginator_requested_pages 2 3, 1 ≤ p) :=
  ⟨⟨by norm_num, by norm_num⟩, C3_pagination_bound 3 2 (by norm_num) (by norm_num)⟩

end Feefo
